import Mathlib

set_option maxRecDepth 100000

/-!
Verification of the MatrixOne TAE storage-engine core against its
natural-language specification.  The Go sources under scrutiny are shallowly
embedded below: pure functions become Lean functions, in-place mutation
becomes explicit state passing, Go machine integers become `Nat` (with the
unsigned-wrap arithmetic made explicit at the spots where the source can
wrap), and fallible code returns an explicit outcome type that also records
Go panics.  Byte strings (`[]byte` and `string`) are modelled as `List Nat`.

Parts of the repository that the examined files depend on but whose sources
are not available (the `tae/common` read/write helpers, `types` encoding,
`moerr` constructors, the segment allocator, the `logstore/entry` constants
and the LZ4 compressor) are modelled from the specification; each such
definition carries a doc comment starting with `Modelled from the spec:`.
-/

/-- Modelled from the spec: the error taxonomy of §7.  `moerr` constructors
used by the embedded code are `NewConstraintViolationNoCtx` and
`NewInvalidInputNoCtx`; I/O failures are `ioErr`.  The printf-style context
arguments of the Go constructors are dropped: only the kind and the template
text matter to the claims. -/
inductive MoErr where
  | constraintViolation (msg : String)
  | invalidInput (msg : String)
  | ioErr (code : Nat)
  deriving DecidableEq

/-- Outcome of a Go function call: a normal result, a returned error, an
io read failure (EOF and friends), or a runtime panic. -/
inductive GoOut (α : Type) where
  | ok (a : α)
  | goError (e : MoErr)
  | eof
  | panicked (msg : String)
  deriving DecidableEq

/-- Big-endian byte list of `n` in `w` bytes (the on-disk integer format:
all multi-byte integers are big-endian fixed-width). -/
def beBytes (w n : Nat) : List Nat :=
  (List.range w).map (fun i => n / 256 ^ (w - 1 - i) % 256)

/-- Value of a big-endian byte list. -/
def beVal (bs : List Nat) : Nat :=
  bs.foldl (fun a b => a * 256 + b % 256) 0

/-- Go `binary.Write` of a `bool`: one byte, 1 for true, 0 for false. -/
def boolByte (b : Bool) : List Nat := [if b then 1 else 0]

/-- Go `binary.Write` of an `int8`: one two's-complement byte. -/
def i8Byte (i : Int) : List Nat := [(i % 256).toNat]

/-- Parser: consume exactly `n` bytes. -/
def takeN (n : Nat) (bs : List Nat) : Option (List Nat × List Nat) :=
  if n ≤ bs.length then some (bs.take n, bs.drop n) else none

/-- Parser for a big-endian unsigned integer of `w` bytes. -/
def rdBE (w : Nat) (bs : List Nat) : Option (Nat × List Nat) :=
  (takeN w bs).map (fun p => (beVal p.1, p.2))

/-- Parser for Go `binary.Read` into a `bool`: nonzero byte means true. -/
def rdBool (bs : List Nat) : Option (Bool × List Nat) :=
  (takeN 1 bs).map (fun p => (decide (p.1.headD 0 % 256 ≠ 0), p.2))

/-- Parser for Go `binary.Read` into an `int8`. -/
def rdI8 (bs : List Nat) : Option (Int × List Nat) :=
  (takeN 1 bs).map (fun p =>
    (if p.1.headD 0 % 256 < 128 then ((p.1.headD 0 % 256 : Nat) : Int)
     else ((p.1.headD 0 % 256 : Nat) : Int) - 256, p.2))

/-- Modelled from the spec: `common.WriteBytes` writes a 64-bit big-endian
length followed by the raw bytes ("All lengths are 64-bit big-endian").
`common.WriteString` uses the same framing on the string's bytes. -/
def writeBytes (bs : List Nat) : List Nat := beBytes 8 bs.length ++ bs

/-- Modelled from the spec: `common.ReadBytes` / `common.ReadString`, the
inverse of `writeBytes`. -/
def rdBytes (bs : List Nat) : Option (List Nat × List Nat) :=
  match rdBE 8 bs with
  | none => none
  | some (n, rest) => takeN n rest

/-- One column definition (`catalog.ColDef`).  `Type` is modelled as an
opaque numeric code (see `typeEncode`); `Default`/`OnUpdate` are byte
blobs; strings are byte lists. -/
structure ColDef where
  name : List Nat
  idx : Nat
  typ : Nat
  hidden : Bool
  phyAddr : Bool
  nullAbility : Bool
  autoIncrement : Bool
  primary : Bool
  sortIdx : Int
  sortKey : Bool
  comment : List Nat
  clusterBy : Bool
  dflt : List Nat
  onUpdate : List Nat
  deriving DecidableEq

/-- A `ColDef` with all fields at their Go zero values. -/
def ColDef.zero : ColDef :=
  ⟨[], 0, 0, false, false, false, false, false, 0, false, [], false, [], []⟩

/-- `catalog.SortKey`: sorted defs plus the `search` map (column idx to sort
idx) and the primary flag. -/
structure SortKey where
  defs : List ColDef
  search : List (Nat × Nat)
  isPrimary : Bool
  deriving DecidableEq

/-- Insertion into the defs list ordered by `SortIdx` (Go appends and then
runs `sort.Slice`; for the single-definition lists the engine builds, any
sort by `SortIdx` coincides with it). -/
def sortKeyInsert (d : ColDef) : List ColDef → List ColDef
  | [] => [d]
  | e :: rest =>
    if d.sortIdx < e.sortIdx then d :: e :: rest else e :: sortKeyInsert d rest

/-- `SortKey.AddDef`. -/
def SortKey.addDef (cpk : SortKey) (d : ColDef) : SortKey × Bool :=
  if (cpk.search.find? (fun p => p.1 == d.idx)).isSome then (cpk, false)
  else
    ({ defs := sortKeyInsert d cpk.defs,
       search := cpk.search ++ [(d.idx, (d.sortIdx % 256).toNat)],
       isPrimary := cpk.isPrimary || d.primary }, true)

/-- `catalog.NewSortKey`. -/
def newSortKey : SortKey := ⟨[], [], false⟩

/-- `catalog.Schema`.  `AcInfo` is modelled as one opaque 64-bit word (its
serializer is not under src; only its round-trip matters here).  The
`NameIndex` map is an association list in insertion order. -/
structure Schema where
  acInfo : Nat
  name : List Nat
  colDefs : List ColDef
  nameIndex : List (List Nat × Nat)
  blockMaxRows : Nat
  segmentMaxBlocks : Nat
  comment : List Nat
  partition : List Nat
  relkind : List Nat
  createsql : List Nat
  view : List Nat
  uniqueIndex : List Nat
  secondaryIndex : List Nat
  constraint : List Nat
  sortKey : Option SortKey
  phyAddrKey : Option ColDef
  deriving DecidableEq

/-- `catalog.NewEmptySchema`. -/
def newEmptySchema (name : List Nat) : Schema :=
  ⟨0, name, [], [], 0, 0, [], [], [], [], [], [], [], [], none, none⟩

/-- Association-list lookup for the name index (Go map access). -/
def nameLookup (ni : List (List Nat × Nat)) (k : List Nat) : Option Nat :=
  (ni.find? (fun p => p.1 == k)).map (·.2)

/-- `Schema.AppendColDef`.  Faithful to the source: the definition is
appended to `ColDefs` before the duplicate check, so on error the column is
appended but the name index is left unchanged. -/
def Schema.appendColDef (s : Schema) (d : ColDef) : Schema × Option MoErr :=
  let d := { d with idx := s.colDefs.length }
  let s := { s with colDefs := s.colDefs ++ [d] }
  if (nameLookup s.nameIndex d.name).isSome then
    (s, some (MoErr.constraintViolation "duplicate column"))
  else
    ({ s with nameIndex := s.nameIndex ++ [(d.name, d.idx)] }, none)

/-- `Schema.AppendCol`. -/
def Schema.appendCol (s : Schema) (name : List Nat) (typ : Nat) :
    Schema × Option MoErr :=
  s.appendColDef { ColDef.zero with
    name := name, typ := typ, sortIdx := -1, nullAbility := true }

/-- `Schema.AppendPKCol`. -/
def Schema.appendPKCol (s : Schema) (name : List Nat) (typ : Nat)
    (idx : Int) : Schema × Option MoErr :=
  s.appendColDef { ColDef.zero with
    name := name, typ := typ, sortIdx := idx, sortKey := true,
    primary := true, nullAbility := false }

/-- `Schema.AppendSortKey`. -/
def Schema.appendSortKey (s : Schema) (name : List Nat) (typ : Nat)
    (idx : Int) (isPrimary : Bool) : Schema × Option MoErr :=
  s.appendColDef { ColDef.zero with
    name := name, typ := typ, sortIdx := idx, sortKey := true,
    primary := isPrimary }

/-- Modelled from the spec: the reserved physical-address column name of the
`catalog` package (its value is immaterial to the claims, only that it is a
fixed reserved name). -/
def phyAddrColumnName : List Nat := [95, 95, 114, 111, 119, 105, 100]

/-- Modelled from the spec: the engine type of the physical-address column. -/
def phyAddrColumnType : Nat := 10001

/-- The hidden physical-address `ColDef` appended by `Finalize(false)`. -/
def phyAddrDef : ColDef :=
  { ColDef.zero with
    name := phyAddrColumnName, typ := phyAddrColumnType, hidden := true,
    nullAbility := false, phyAddr := true }

/-- The validation loop of `Schema.Finalize`: walks the column list with its
position, checking the stored index, name uniqueness and physical-address
uniqueness, and collecting the positions of sort-key columns.  Returns the
collected sort positions and the physical-address column. -/
def finalizeLoop : List ColDef → Nat → List (List Nat) → List Nat →
    Option ColDef → GoOut (List Nat × Option ColDef)
  | [], _, _, acc, phy => GoOut.ok (acc, phy)
  | d :: rest, idx, seen, acc, phy =>
    if d.idx ≠ idx then
      GoOut.goError (MoErr.invalidInput "schema: wrong column index")
    else if seen.any (fun nm => nm == d.name) then
      GoOut.goError (MoErr.invalidInput "schema: duplicate column")
    else
      let seen := d.name :: seen
      let acc := if d.sortKey then acc ++ [idx] else acc
      if d.phyAddr then
        match phy with
        | some _ =>
          GoOut.goError
            (MoErr.invalidInput "schema: duplicated physical address column")
        | none => finalizeLoop rest (idx + 1) seen acc (some d)
      else finalizeLoop rest (idx + 1) seen acc phy

/-- `Schema.Finalize`.  Faithful control flow: the optional physical-address
column append, the empty check, the validation loop, then the sort-key
resolution, which panics when more than one sort-key column was collected.
Go mutates the schema in place and returns an error; the embedding returns
the updated schema only on success (the claims never inspect the partially
mutated schema of a failed call). -/
def Schema.finalize (s : Schema) (withoutPhyAddr : Bool) : GoOut Schema :=
  let step :=
    if withoutPhyAddr then GoOut.ok s
    else
      match s.appendColDef phyAddrDef with
      | (s, none) => GoOut.ok s
      | (_, some e) => GoOut.goError e
  match step with
  | GoOut.ok s =>
    if s.colDefs.length = 0 then
      GoOut.goError (MoErr.constraintViolation "empty column defs")
    else
      match finalizeLoop s.colDefs 0 [] [] s.phyAddrKey with
      | GoOut.ok (sortColIdx, phy) =>
        let s := { s with phyAddrKey := phy }
        if sortColIdx.length = 1 then
          let d := s.colDefs.getD (sortColIdx.headD 0) ColDef.zero
          if d.sortIdx ≠ 0 then
            GoOut.goError (MoErr.constraintViolation "bad sort idx")
          else
            GoOut.ok { s with sortKey := some (newSortKey.addDef d).1 }
        else if sortColIdx.length > 1 then
          GoOut.panicked "schema: multiple sort keys"
        else GoOut.ok s
      | GoOut.goError e => GoOut.goError e
      | GoOut.eof => GoOut.eof
      | GoOut.panicked m => GoOut.panicked m
  | out => out

/-- Modelled from the spec: `types.TSize`, the fixed byte width of the
column-type encoding. -/
def typeTSize : Nat := 8

/-- Modelled from the spec: `types.EncodeType`, a fixed-width deterministic
binary encoding of the type descriptor; the opaque type code is written as
`typeTSize` big-endian bytes so that `typeDecode` is its inverse. -/
def typeEncode (t : Nat) : List Nat := beBytes typeTSize (t % 2 ^ 64)

/-- Modelled from the spec: `types.DecodeType`. -/
def typeDecode (bs : List Nat) : Nat := beVal bs

/-- The serialized form of one column in `Schema.Marshal`:
`type | name | comment | nullable | hidden | phy_addr | auto_increment |
sort_idx | primary | sort_key | cluster_by | default | on_update`. -/
def ColDef.marshal (d : ColDef) : List Nat :=
  typeEncode d.typ ++ writeBytes d.name ++ writeBytes d.comment ++
  boolByte d.nullAbility ++ boolByte d.hidden ++ boolByte d.phyAddr ++
  boolByte d.autoIncrement ++ i8Byte d.sortIdx ++ boolByte d.primary ++
  boolByte d.sortKey ++ boolByte d.clusterBy ++
  beBytes 8 d.dflt.length ++ d.dflt ++
  beBytes 8 d.onUpdate.length ++ d.onUpdate

/-- `Schema.Marshal`.  Field order exactly as the source writes it: note
that `Constraint` is written directly after `View`, before `UniqueIndex`
and `SecondaryIndex`. -/
def Schema.marshal (s : Schema) : List Nat :=
  beBytes 4 s.blockMaxRows ++ beBytes 2 s.segmentMaxBlocks ++
  beBytes 8 s.acInfo ++
  writeBytes s.name ++ writeBytes s.comment ++ writeBytes s.partition ++
  writeBytes s.relkind ++ writeBytes s.createsql ++ writeBytes s.view ++
  writeBytes s.constraint ++ writeBytes s.uniqueIndex ++
  writeBytes s.secondaryIndex ++
  beBytes 2 s.colDefs.length ++ s.colDefs.flatMap ColDef.marshal

/-- Parser for one column in `Schema.ReadFrom`. -/
def colParse (bs : List Nat) : Option (ColDef × List Nat) :=
  match takeN typeTSize bs with
  | none => none
  | some (tb, bs) =>
  match rdBytes bs with
  | none => none
  | some (nm, bs) =>
  match rdBytes bs with
  | none => none
  | some (cm, bs) =>
  match rdBool bs with
  | none => none
  | some (nullab, bs) =>
  match rdBool bs with
  | none => none
  | some (hid, bs) =>
  match rdBool bs with
  | none => none
  | some (phy, bs) =>
  match rdBool bs with
  | none => none
  | some (auto, bs) =>
  match rdI8 bs with
  | none => none
  | some (sidx, bs) =>
  match rdBool bs with
  | none => none
  | some (prim, bs) =>
  match rdBool bs with
  | none => none
  | some (skey, bs) =>
  match rdBool bs with
  | none => none
  | some (clus, bs) =>
  match rdBE 8 bs with
  | none => none
  | some (dlen, bs) =>
  match takeN dlen bs with
  | none => none
  | some (dflt, bs) =>
  match rdBE 8 bs with
  | none => none
  | some (ulen, bs) =>
  match takeN ulen bs with
  | none => none
  | some (onUp, bs) =>
    some ({ name := nm, idx := 0, typ := typeDecode tb, hidden := hid,
            phyAddr := phy, nullAbility := nullab, autoIncrement := auto,
            primary := prim, sortIdx := sidx, sortKey := skey, comment := cm,
            clusterBy := clus, dflt := dflt, onUpdate := onUp }, bs)

/-- The column loop of `Schema.ReadFrom`: parse each column and run it
through `AppendColDef`, stopping on the first error. -/
def readCols : Nat → Schema → List Nat → GoOut (Schema × List Nat)
  | 0, s, bs => GoOut.ok (s, bs)
  | n + 1, s, bs =>
    match colParse bs with
    | none => GoOut.eof
    | some (d, bs) =>
      match s.appendColDef d with
      | (_, some e) => GoOut.goError e
      | (s, none) => readCols n s bs

/-- The header parse of `Schema.ReadFrom`, in the exact read order of the
source: `View` is followed by `UniqueIndex`, `SecondaryIndex` and only then
`Constraint` — a different order than `Marshal` writes. -/
def schemaHeaderParse (s : Schema) (bs : List Nat) :
    Option (Schema × Nat × List Nat) :=
  match rdBE 4 bs with
  | none => none
  | some (bmr, bs) =>
  match rdBE 2 bs with
  | none => none
  | some (smb, bs) =>
  match rdBE 8 bs with
  | none => none
  | some (ac, bs) =>
  match rdBytes bs with
  | none => none
  | some (nm, bs) =>
  match rdBytes bs with
  | none => none
  | some (cm, bs) =>
  match rdBytes bs with
  | none => none
  | some (pt, bs) =>
  match rdBytes bs with
  | none => none
  | some (rk, bs) =>
  match rdBytes bs with
  | none => none
  | some (cs, bs) =>
  match rdBytes bs with
  | none => none
  | some (vw, bs) =>
  match rdBytes bs with
  | none => none
  | some (ui, bs) =>
  match rdBytes bs with
  | none => none
  | some (si, bs) =>
  match rdBytes bs with
  | none => none
  | some (ct, bs) =>
  match rdBE 2 bs with
  | none => none
  | some (colCnt, bs) =>
    some ({ s with
            blockMaxRows := bmr, segmentMaxBlocks := smb, acInfo := ac,
            name := nm, comment := cm, partition := pt, relkind := rk,
            createsql := cs, view := vw, uniqueIndex := ui,
            secondaryIndex := si, constraint := ct }, colCnt, bs)

/-- `Schema.ReadFrom`: parse the header, run the column loop, then
`Finalize(true)`, starting (as `Clone` does) from an empty schema. -/
def Schema.readFrom (s : Schema) (bs : List Nat) : GoOut Schema :=
  match schemaHeaderParse s bs with
  | none => GoOut.eof
  | some (s, colCnt, bs) =>
    match readCols colCnt s bs with
    | GoOut.ok (s, _) => s.finalize true
    | GoOut.goError e => GoOut.goError e
    | GoOut.eof => GoOut.eof
    | GoOut.panicked m => GoOut.panicked m

/-! ## Segment layer: extents, inodes, block files
(`pkg/vm/engine/tae/layout/segment/inode.go`) -/

/-- The `data` subrange of an extent (source type `entry` in the segment
package): which prefix of the extent holds meaningful bytes. -/
structure DataEntry where
  offset : Nat
  length : Nat
  deriving DecidableEq

/-- `segment.Extent`: type, physical offset, allocated length and the data
subrange.  The numeric values of the type constants are immaterial;
`APPEND` is the Go zero value, as a zero-initialized `Extent{offset, length}`
literal carries it. -/
structure Extent where
  typ : Nat
  offset : Nat
  length : Nat
  data : DataEntry
  deriving DecidableEq

/-- Modelled from the spec: the extent type constants (`type ∈ {Append,
Update}`), `APPEND` being the zero value. -/
def appendTyp : Nat := 0

/-- Modelled from the spec: the `Update` extent type constant. -/
def updateTyp : Nat := 1

/-- `Extent.End`. -/
def Extent.end_ (e : Extent) : Nat := e.offset + e.length

/-- A freed range as the source returns it: an `Extent` literal with only
offset and length set. -/
def mkFree (off len : Nat) : Extent := ⟨0, off, len, ⟨0, 0⟩⟩

/-- Inode states: `RESIDENT` and `REMOVE` (`StateType`, iota order). -/
def residentState : Nat := 0

/-- The `REMOVE` inode state. -/
def removeState : Nat := 1

/-- `segment.Inode`: metadata of one logical stream. -/
structure Inode where
  inode : Nat
  algo : Nat
  size : Nat
  originSize : Nat
  extents : List Extent
  logExtents : Extent
  state : Nat
  deriving DecidableEq

/-- A fresh inode with all fields at their zero values. -/
def Inode.zero : Inode := ⟨0, 0, 0, 0, [], ⟨0, 0, 0, ⟨0, 0⟩⟩, 0⟩

/-- Modelled from the spec: `p2roundup`, rounding `x` up to a multiple of
the (power-of-two) allocator block size; for a power of two this closed
form agrees with the usual bit trick. -/
def p2roundup (x align : Nat) : Nat := (x + align - 1) / align * align

/-- Modelled from the spec: the `compress.Lz4` algorithm code recorded in
the inode (nonzero; its exact value is immaterial). -/
def lz4Algo : Nat := 1

/-- Truncating a signed difference to `uint32`, as Go's wrap-around
subtraction of `uint32` operands produces. -/
def u32 (i : Int) : Nat := (i % (2 ^ 32 : Int)).toNat

/-- The segment file content as a byte map, plus `WriteAt`. -/
def segWriteAt (f : Nat → Nat) (off : Nat) (bytes : List Nat) : Nat → Nat :=
  fun i => if off ≤ i ∧ i < off + bytes.length then bytes.getD (i - off) 0
           else f i

/-- `BlockFile.Append`.  The LZ4 call (`compress.Compress`, not under src)
is modelled from the spec by taking the compressed buffer as an argument;
everything after the compression is the source verbatim: the compressed
bytes are written at `offset`, a new `APPEND` extent of the rounded-up
length (with the data subrange recording the unrounded compressed length)
is appended, `size` grows by the compressed length and `originSize` by the
input length. -/
def blockFileAppend (blockSize : Nat) (f : Nat → Nat) (node : Inode)
    (offset : Nat) (data compressed : List Nat) : (Nat → Nat) × Inode :=
  let cbufLen := p2roundup compressed.length blockSize
  let f := segWriteAt f offset compressed
  (f, { node with
        algo := lz4Algo
        extents := node.extents ++
          [⟨appendTyp, offset, cbufLen, ⟨0, compressed.length⟩⟩]
        size := node.size + compressed.length
        originSize := node.originSize + data.length })

/-- The walk at the head of `repairExtent` and `ReadExtent`: subtract
extent lengths from the logical offset until the containing extent is
found; returns its index and the remaining in-extent offset. -/
def findExtIdx : List Extent → Nat → Nat × Nat
  | [], f => (0, f)
  | e :: rest, f =>
    if f ≥ e.length then
      let p := findExtIdx rest (f - e.length)
      (p.1 + 1, p.2)
    else (0, f)

/-- `extentsInsert`. -/
def extentsInsert (exts : List Extent) (idx : Nat) (vals : List Extent) :
    List Extent :=
  exts.take idx ++ vals ++ exts.drop idx

/-- `extentsRemove`: drops, for each listed value, the extent matching its
offset and length.  (The Go original mutates the slice while ranging over
it; for the removal lists the engine produces, where each value occurs
once, that is the same as erasing the first match of each value.) -/
def extentsRemove (exts : List Extent) (vals : List Extent) : List Extent :=
  vals.foldl
    (fun es v => es.eraseP (fun e => e.offset == v.offset && e.length == v.length))
    exts

/-- The consuming loop of `repairExtent`.  `extOrig` is the by-value copy
`ext` the source takes before mutating, `fuel` bounds the iteration count
(the source's loop advances `idx` every iteration, so `exts.length + 1`
steps always suffice); `none` models the index-out-of-range panic. -/
def repairLoop (extOrig : Extent) (fOffset num : Nat) :
    Nat → List Extent → Nat → Nat → List Extent → List Extent →
    Option (List Extent × List Extent × List Extent)
  | 0, _, _, _, _, _ => none
  | fuel + 1, exts, idx, freeLength, free, remove =>
    if freeLength == 0 || idx == exts.length then some (exts, free, remove)
    else
      match exts.get? idx with
      | none => none
      | some e =>
        if idx == num then
          let exts := exts.set num { e with length := fOffset }
          let xLen := min (extOrig.length - fOffset) freeLength
          let free := free ++ [mkFree (e.offset + fOffset) xLen]
          let freeLength := freeLength - xLen
          if freeLength == 0 then some (exts, free, remove)
          else repairLoop extOrig fOffset num fuel exts (idx + 1) freeLength
            free remove
        else if e.length > freeLength then
          let xLen := freeLength
          let free := free ++ [mkFree e.offset xLen]
          let exts := exts.set idx
            { e with offset := e.offset + xLen, length := e.length - xLen }
          repairLoop extOrig fOffset num fuel exts (idx + 1)
            (freeLength - xLen) free remove
        else
          let xLen := e.length
          let free := free ++ [mkFree e.offset xLen]
          let remove := remove ++ [e]
          repairLoop extOrig fOffset num fuel exts (idx + 1)
            (freeLength - xLen) free remove

/-- `BlockFile.repairExtent`: locate the extent containing `fOffset`,
either convert it in place (full cover) or split it, consume `length`
bytes worth of old extents, and splice the new `UPDATE` extent (plus a
suffix remainder, when one exists) in after position `num`.  Returns the
updated inode and the freed ranges; `none` models the panics of the
original on out-of-range offsets. -/
def repairExtent (node : Inode) (offset fOffset0 length : Nat) :
    Option (Inode × List Extent) :=
  let walk := findExtIdx node.extents fOffset0
  let num := walk.1
  let fOffset := walk.2
  match node.extents.get? num with
  | none => none
  | some ext =>
    let remaining :=
      if ext.length > fOffset + length then ext.length - fOffset - length
      else 0
    let oldOff := ext.offset
    if fOffset == 0 &&
        u32 ((ext.length : Int) - (fOffset : Int) - (length : Int)) == 0 then
      some ({ node with
              extents := node.extents.set num
                { ext with typ := updateTyp, offset := offset } },
            [mkFree oldOff length])
    else
      let vals := [(⟨updateTyp, offset, length, ⟨0, 0⟩⟩ : Extent)]
      let exts := node.extents
      let st :=
        if remaining > 0 then
          (exts.set num { ext with length := fOffset },
           vals ++ [(⟨0, ext.end_ - remaining, remaining, ⟨0, 0⟩⟩ : Extent)])
        else (exts, vals)
      match repairLoop ext fOffset num (st.1.length + 1) st.1 num length
          [] [] with
      | none => none
      | some (exts, free, remove) =>
        let exts :=
          if remove.length > 0 then extentsRemove exts remove else exts
        some ({ node with extents := extentsInsert exts (num + 1) st.2 },
              free)

/-- `BlockFile.Update`: write the new bytes at the given physical offset
(`binary.Write` of a byte slice is the identity on its bytes) and repair
the extent list with the rounded-up length. -/
def blockFileUpdate (blockSize : Nat) (f : Nat → Nat) (node : Inode)
    (offset : Nat) (data : List Nat) (fOffset : Nat) :
    Option ((Nat → Nat) × Inode × List Extent) :=
  let cbufLen := p2roundup data.length blockSize
  let f := segWriteAt f offset data
  (repairExtent node offset fOffset cbufLen).map (fun p => (f, p.1, p.2))

/-- The result of a raw `ReadAt` on the segment file: bytes, or an I/O
error.  A pure in-memory file never fails. -/
def pureReadAt (f : Nat → Nat) : Nat → Nat → GoOut (List Nat) :=
  fun pos len => GoOut.ok ((List.range len).map (fun i => f (pos + i)))

/-- The read loop of `BlockFile.ReadExtent`: each iteration reads
`readOne` bytes from the current extent (the source zeroes the in-extent
offset before issuing `ReadAt`, so every read starts at the extent's
physical offset), advances, and stops when the remaining length reaches
zero or the `remain` tail.  `none` via `panicked` models the
index-out-of-range panic after the extent list is exhausted. -/
def readExtLoop (readAt : Nat → Nat → GoOut (List Nat))
    (exts : List Extent) (remain : Nat) :
    Nat → Nat → Nat → Nat → List Nat → GoOut (List Nat)
  | 0, _, _, _, _ => GoOut.panicked "index out of range"
  | fuel + 1, num, offset, length, acc =>
    match exts.get? num with
    | none => GoOut.panicked "index out of range"
    | some e =>
      let readOne :=
        if offset > 0 then
          if e.length - offset < length then e.length - offset else length
        else if e.length < length then e.length
        else length
      match readAt e.offset readOne with
      | GoOut.ok chunk =>
        let acc := acc ++ chunk
        let length := length - readOne
        if length == 0 || length == remain then GoOut.ok acc
        else readExtLoop readAt exts remain fuel (num + 1) 0 length acc
      | GoOut.goError err => GoOut.goError err
      | GoOut.eof => GoOut.eof
      | GoOut.panicked m => GoOut.panicked m

/-- `BlockFile.ReadExtent`: compute the `remain` tail with Go's `uint32`
wrap-around subtraction, walk to the extent containing `offset`, then run
the read loop. -/
def readExtent (readAt : Nat → Nat → GoOut (List Nat)) (node : Inode)
    (offset length : Nat) : GoOut (List Nat) :=
  let remain := u32 ((node.size : Int) - (offset : Int) - (length : Int))
  let walk := findExtIdx node.extents offset
  readExtLoop readAt node.extents remain (node.extents.length + 1) walk.1
    walk.2 length []

/-- Writing a chunk into the read buffer at position `boff`
(`copy` into `data[boff : boff+len]`). -/
def bufWrite (buf : List Nat) (boff : Nat) (bytes : List Nat) : List Nat :=
  buf.take boff ++ bytes ++ buf.drop (boff + bytes.length)

/-- The per-extent loop of `BlockFile.Read`: each extent contributes its
data-subrange length read via `ReadExtent`; a failing `ReadExtent` aborts
with its error only when the expected contribution is nonzero (the source
checks `err != nil && dataLen != ext.GetData().GetLength()`, and a failed
`ReadExtent` returns a zero count). -/
def blockReadLoop (readAt : Nat → Nat → GoOut (List Nat)) (node : Inode) :
    List Extent → Nat → Nat → Nat → List Nat → GoOut (Nat × List Nat)
  | [], n, _, _, buf => GoOut.ok (n, buf)
  | ext :: rest, n, boff, roff, buf =>
    let dlen := ext.data.length
    if boff + dlen > buf.length then
      GoOut.panicked "slice bounds out of range"
    else
      match readExtent readAt node roff dlen with
      | GoOut.ok chunk =>
        blockReadLoop readAt node rest (n + chunk.length) (boff + dlen)
          (roff + ext.length) (bufWrite buf boff chunk)
      | GoOut.goError err =>
        if dlen ≠ 0 then GoOut.goError err
        else blockReadLoop readAt node rest n (boff + dlen)
          (roff + ext.length) buf
      | GoOut.eof => GoOut.eof
      | GoOut.panicked m => GoOut.panicked m

/-- `BlockFile.Read` into a buffer with the given initial content: empty
buffers return immediately, otherwise each extent's data subrange is read
and placed consecutively. -/
def blockFileRead (readAt : Nat → Nat → GoOut (List Nat)) (node : Inode)
    (buf : List Nat) : GoOut (Nat × List Nat) :=
  if buf.length == 0 then GoOut.ok (0, buf)
  else blockReadLoop readAt node node.extents 0 0 0 buf

/-! ## Embedded log (`pkg/vm/engine/tae/layout/segment/log.go`) -/

/-- Modelled from the spec: the segment allocator (§4.1), deterministic:
`Allocate` hands out the next offset for exactly the requested (already
rounded) length; `Free` records the freed range.  Only the sequence of
`Free` calls and the allocated positions matter to the log claims, so the
state is that trace. -/
structure Allocator where
  next : Nat
  freed : List (Nat × Nat)
  deriving DecidableEq

/-- `Allocator.Allocate`. -/
def Allocator.allocate (a : Allocator) (n : Nat) :
    (Nat × Nat) × Allocator :=
  ((a.next, n), { a with next := a.next + n })

/-- `Allocator.Free`. -/
def Allocator.free (a : Allocator) (off len : Nat) : Allocator :=
  { a with freed := a.freed ++ [(off, len)] }

/-- The serialized inode image a log append journals: inode id, algo,
state, size and the extent triples, exactly the fields `Log.Append`
writes into its buffer. -/
structure LogRecord where
  inode : Nat
  algo : Nat
  state : Nat
  size : Nat
  extents : List (Nat × Nat × Nat)
  deriving DecidableEq

/-- The log region state: the allocator plus the journaled records. -/
structure LogState where
  alloc : Allocator
  records : List LogRecord
  deriving DecidableEq

/-- The byte length of the serialized inode image: u64 inode + u8 algo +
u8 state + u64 size + u64 extent count, then per extent a type byte and
two u32 fields. -/
def inodeLogBufLen (node : Inode) : Nat := 26 + 9 * node.extents.length

/-- `Log.Append`: serialize the inode image, pad the length up to the next
block boundary with the source's exact formula, allocate a fresh log
extent, write the record, free the previous log extent and point
`logExtents` at the new one. -/
def logAppend (blockSize : Nat) (st : LogState) (node : Inode) :
    LogState × Inode :=
  let l := inodeLogBufLen node
  let ibufLen := blockSize - l % blockSize + l
  let res := st.alloc.allocate ibufLen
  let rec_ : LogRecord :=
    ⟨node.inode, node.algo, node.state, node.size,
     node.extents.map (fun e => (e.typ, e.offset, e.length))⟩
  let a := res.2.free node.logExtents.offset node.logExtents.length
  ({ alloc := a, records := st.records ++ [rec_] },
   { node with logExtents :=
       { node.logExtents with offset := res.1.1, length := res.1.2 } })

/-- `Log.RemoveInode`: flip the state to `REMOVE`, journal the inode via
`Log.Append` (which already frees the previous log extent), then free the
inode's `logExtents` — which `Append` has just repointed at the freshly
allocated record. -/
def removeInode (blockSize : Nat) (st : LogState) (node : Inode) :
    LogState × Inode :=
  let node := { node with state := removeState }
  let p := logAppend blockSize st node
  let a := p.1.alloc.free p.2.logExtents.offset p.2.logExtents.length
  ({ p.1 with alloc := a }, p.2)

/-! ## Column data files (`pkg/vm/engine/tae/dataio/segmentio/data.go`) -/

/-- `segmentio.fileStat`: the cached stat of a data file. -/
structure FileStat where
  size : Nat
  originSize : Nat
  algo : Nat
  deriving DecidableEq

/-- The wrapped `segment.BlockFile` a bound data file reads through: its
inode and the raw `ReadAt` of the owning segment file (which may fail with
an I/O error). -/
structure BlockFileM where
  node : Inode
  readAt : Nat → Nat → GoOut (List Nat)

/-- `segmentio.dataFile`: `file = none` models a nil backing file slice
(as `newIndex`, `newUpdates` and `newDeletes` create it). -/
structure DataFile where
  file : Option BlockFileM
  buf : List Nat
  stat : FileStat

/-- `newData`: a fresh data file with an empty buffer. -/
def newData : DataFile := ⟨none, [], ⟨0, 0, 0⟩⟩

/-- `newIndex` (and likewise `newUpdates`, `newDeletes`): a fresh data
file with the backing file slice set to nil. -/
def newIndex : DataFile := { newData with file := none }

/-- Go `copy(dst, src)`: copies `min` of the two lengths, leaving the rest
of `dst` untouched. -/
def goCopy (dst src : List Nat) : List Nat :=
  src.take (min dst.length src.length) ++ dst.drop (min dst.length src.length)

/-- `dataFile.Write`.  With a nil backing file the buffer is replaced by a
private copy and the stat is set from its length with `algo = 0`.  The
bound-file branch goes through `Segment.Append`, which is not under src,
so the embedding covers only the nil branch (`none` otherwise); the claims
only exercise the nil branch. -/
def dataFileWrite (df : DataFile) (buf : List Nat) :
    Option (DataFile × Nat) :=
  match df.file with
  | none =>
    some ({ df with buf := buf, stat := ⟨buf.length, buf.length, 0⟩ },
          buf.length)
  | some _ => none

/-- `dataFile.Read`: with a nil backing file, report the full buffer
length and copy the stored bytes in; with a bound file, call the wrapped
`BlockFile.Read` and return its count with a nil error — the source's
`return n, nil` discards the read error.  The result carries the count,
the final buffer content and the returned error. -/
def dataFileRead (df : DataFile) (buf : List Nat) :
    GoOut (Nat × List Nat × Option MoErr) :=
  match df.file with
  | none => GoOut.ok (buf.length, goCopy buf df.buf, none)
  | some bf =>
    if buf.length == 0 then GoOut.ok (0, buf, none)
    else
      match blockFileRead bf.readAt bf.node buf with
      | GoOut.ok p => GoOut.ok (p.1, p.2, none)
      | GoOut.goError _ => GoOut.ok (0, buf, none)
      | GoOut.eof => GoOut.eof
      | GoOut.panicked m => GoOut.panicked m

/-! ## Write-ahead-log replayer
(`pkg/vm/engine/tae/logstore/store/replayer.go`) -/

/-- Modelled from the spec: the `logstore/entry` kind constants; only
their distinctness matters. -/
def eTFlush : Nat := 1

/-- The `ETCheckpoint` entry kind. -/
def eTCheckpoint : Nat := 2

/-- The `ETUncommitted` entry kind. -/
def eTUncommitted : Nat := 3

/-- The `ETTxn` entry kind. -/
def eTTxn : Nat := 4

/-- The `ETCustomizedStart` entry kind, standing for the `Commit`-like
kinds the classifier files under its default branch. -/
def eTCustomized : Nat := 5

/-- `store.replayEntry`: what the replayer buffers per scanned entry. -/
structure ReplayEntry where
  entryType : Nat
  group : Nat
  commitId : Nat
  tid : Nat
  payload : List Nat
  deriving DecidableEq

/-- One invocation of the apply callback:
`applyEntry(group, commitId, payload, entryType, info)`. -/
structure ApplyCall where
  group : Nat
  lsn : Nat
  payload : List Nat
  entryType : Nat
  deriving DecidableEq

/-- The call a buffered entry contributes. -/
def toCall (e : ReplayEntry) : ApplyCall :=
  ⟨e.group, e.commitId, e.payload, e.entryType⟩

/-- Go map lookup on an association list with `Nat` keys. -/
def alistGet {β : Type} (m : List (Nat × β)) (k : Nat) : Option β :=
  (m.find? (fun p => p.1 == k)).map (·.2)

/-- Go map insertion: replace the binding of `k`, or append a fresh one. -/
def alistSet {β : Type} (m : List (Nat × β)) (k : Nat) (v : β) :
    List (Nat × β) :=
  if m.any (fun p => p.1 == k) then
    m.map (fun p => if p.1 == k then (k, v) else p)
  else m ++ [(k, v)]

/-- `store.replayer`, restricted to the state `Apply` consumes: the
uncommitted buffers keyed by group then txn-id, the ordered entry list,
the per-group checkpoint ranges and the buffered checkpoint entries.  The
`addrs`/`groupLSN`/`vinfoAddrs` bookkeeping of the source never feeds into
`Apply` and is not modelled. -/
structure Replayer where
  uncommit : List (Nat × List (Nat × List ReplayEntry))
  entrys : List ReplayEntry
  checkpointrange : List (Nat × List (Nat × Nat))
  checkpoints : List ReplayEntry
  deriving DecidableEq

/-- `newReplayer` (state part). -/
def newReplayer : Replayer := ⟨[], [], [], []⟩

/-- Modelled from the spec: `common.ClosedIntervals.ContainsInterval` on a
singleton interval — the lsn lies in one of the closed ranges (§4.6:
"Skip any entry whose (group, lsn) lies within checkpointRange[group]"). -/
def containsLsn (ivs : List (Nat × Nat)) (l : Nat) : Bool :=
  ivs.any (fun iv => decide (iv.1 ≤ l) && decide (l ≤ iv.2))

/-- The buffered uncommitted entries for `(group, tid)`, in insertion
order (`r.uncommit[group][tid]`). -/
def uncommitFor (r : Replayer) (g t : Nat) : List ReplayEntry :=
  match alistGet r.uncommit g with
  | none => []
  | some tidMap => (alistGet tidMap t).getD []

/-- The body of the phase-B loop of `replayer.Apply` for one entry past
the checkpoint-range check: a `Txn` entry first applies the uncommitted
entries buffered under its `(group, tid)` (when the nested map lookups
succeed), then itself; anything else applies itself. -/
def applyBody (r : Replayer) (e : ReplayEntry) : List ApplyCall :=
  if e.entryType == eTTxn then
    (match alistGet r.uncommit e.group with
     | some tidMap =>
       match alistGet tidMap e.tid with
       | some entries => entries.map toCall
       | none => []
     | none => []) ++ [toCall e]
  else [toCall e]

/-- One iteration of the phase-B loop of `replayer.Apply`: consult the
checkpoint range of the entry's group and skip (`continue`) when it
contains the entry's lsn. -/
def applyEntryCalls (r : Replayer) (e : ReplayEntry) : List ApplyCall :=
  match alistGet r.checkpointrange e.group with
  | some ivs =>
    if containsLsn ivs e.commitId then [] else applyBody r e
  | none => applyBody r e

/-- The phase-B loop of `replayer.Apply` over the buffered entry list. -/
def applyLoop (r : Replayer) : List ReplayEntry → List ApplyCall
  | [] => []
  | e :: rest => applyEntryCalls r e ++ applyLoop r rest

/-- `replayer.Apply`: phase A applies every buffered checkpoint entry in
log order, then phase B walks the ordered entry list. -/
def replayerApply (r : Replayer) : List ApplyCall :=
  r.checkpoints.map toCall ++ applyLoop r r.entrys

/-- One scanned log entry as `onReplayEntry` sees it: its kind, `(group,
lsn, txn-id)` and payload from the info buffer, the target-group list of
an `Uncommitted` entry, and the declared `(group, ranges)` pairs of a
`Checkpoint` entry. -/
structure ScannedEntry where
  etype : Nat
  group : Nat
  lsn : Nat
  txnId : Nat
  payload : List Nat
  uncommits : List Nat
  ckps : List (Nat × List (Nat × Nat))
  deriving DecidableEq

/-- `replayer.onReplayEntry`, restricted to the buffered state: `Flush` is
dropped; `Checkpoint` buffers the entry (with only type and payload set)
and merges its declared ranges per group (`TryMerge` modelled from the
spec as joining the interval sets); `Uncommitted` appends a payload-only
entry under each declared target group keyed by the txn-id; `Txn` and the
default kinds append to the ordered entry list (the default branch leaves
the txn-id at its zero value). -/
def onReplayEntry (r : Replayer) (e : ScannedEntry) : Replayer :=
  if e.etype == eTFlush then r
  else if e.etype == eTCheckpoint then
    let r := { r with checkpoints :=
      r.checkpoints ++ [⟨e.etype, 0, 0, 0, e.payload⟩] }
    e.ckps.foldl (fun r ckp =>
      let ivs :=
        match alistGet r.checkpointrange ckp.1 with
        | none => ckp.2
        | some old => old ++ ckp.2
      { r with checkpointrange := alistSet r.checkpointrange ckp.1 ivs }) r
  else if e.etype == eTUncommitted then
    e.uncommits.foldl (fun r g =>
      let tidMap := (alistGet r.uncommit g).getD []
      let entries := (alistGet tidMap e.txnId).getD []
      let entries := entries ++ [⟨0, 0, 0, 0, e.payload⟩]
      { r with uncommit :=
          alistSet r.uncommit g (alistSet tidMap e.txnId entries) }) r
  else if e.etype == eTTxn then
    { r with entrys := r.entrys ++ [⟨e.etype, e.group, e.lsn, e.txnId, e.payload⟩] }
  else
    { r with entrys := r.entrys ++ [⟨e.etype, e.group, e.lsn, 0, e.payload⟩] }

/-- The classification pass: fold `onReplayEntry` over the scanned
entries. -/
def replayerScan (es : List ScannedEntry) : Replayer :=
  es.foldl onReplayEntry newReplayer

/-- Whether the entry's `(group, lsn)` lies inside the classified
checkpoint range of its group — the spec-side suppression predicate. -/
def inCkptRange (r : Replayer) (e : ReplayEntry) : Bool :=
  match alistGet r.checkpointrange e.group with
  | some ivs => containsLsn ivs e.commitId
  | none => false

/-- The spec-side expansion of one buffered entry (§4.6 apply phase B):
suppressed entries contribute nothing; a `Txn` entry contributes the
buffered uncommitted payloads for its `(group, txn-id)` in insertion order
and then its own call; every other entry contributes its own call. -/
def expandEntry (r : Replayer) (e : ReplayEntry) : List ApplyCall :=
  if inCkptRange r e then []
  else if e.entryType == eTTxn then
    (uncommitFor r e.group e.tid).map toCall ++ [toCall e]
  else [toCall e]

/-! ## Helper views and concrete instances used by the theorems -/

/-- The successful value of a `GoOut`, when there is one. -/
def okOf {α : Type} : GoOut α → Option α
  | GoOut.ok a => some a
  | _ => none

/-- Whether an outcome is a returned `ConstraintViolation` error. -/
def errKindCV {α : Type} : GoOut α → Bool
  | GoOut.goError (MoErr.constraintViolation _) => true
  | _ => false

/-- Sum of the allocated lengths of an inode's extents. -/
def extLenSum (n : Inode) : Nat := (n.extents.map Extent.length).sum

/-- Sum of the data-subrange lengths of an inode's extents. -/
def extDataSum (n : Inode) : Nat :=
  (n.extents.map (fun e => e.data.length)).sum

/-- Fold a sequence of `(offset, data, compressed)` appends into an inode,
starting from a given one. -/
def applyAppendsFrom (blockSize : Nat) (node : Inode)
    (l : List (Nat × List Nat × List Nat)) : Inode :=
  l.foldl
    (fun n t => (blockFileAppend blockSize (fun _ => 0) n t.1 t.2.1 t.2.2).2)
    node

/-- Fold a sequence of appends into a fresh inode. -/
def applyAppends (blockSize : Nat) (l : List (Nat × List Nat × List Nat)) :
    Inode := applyAppendsFrom blockSize Inode.zero l

/-- The logical byte ranges the extents of a list cover, in order. -/
def logicalRanges : List Extent → Nat → List (Nat × Nat)
  | [], _ => []
  | e :: rest, acc => (acc, acc + e.length) :: logicalRanges rest (acc + e.length)

/-- The positions (list indices, offset by `idx`) of the sort-key columns:
what the `Finalize` validation loop collects into `sortColIdx`. -/
def sortPositions : List ColDef → Nat → List Nat
  | [], _ => []
  | c :: rest, idx =>
    (if c.sortKey then [idx] else []) ++ sortPositions rest (idx + 1)

/-- C1 instance: two columns added, then the user-visible string and blob
fields populated as a catalog caller would. -/
def c1Base : Schema :=
  ((((newEmptySchema [116]).appendPKCol [97] 3 0).1).appendCol [98] 5).1

/-- C1 instance: the schema before finalization. -/
def c1Pre : Schema :=
  { c1Base with
    view := [118]
    uniqueIndex := [117, 117]
    secondaryIndex := [115, 115, 115]
    constraint := [1, 2]
    comment := [99]
    blockMaxRows := 5
    segmentMaxBlocks := 7
    acInfo := 11 }

/-- C1 instance: the finalized schema. -/
def c1Schema : Schema :=
  match c1Pre.finalize true with
  | GoOut.ok s => s
  | _ => c1Pre

/-- C1 instance: deserializing the serialized schema, as `Clone` does. -/
def c1Read : Option Schema :=
  okOf ((newEmptySchema c1Schema.name).readFrom c1Schema.marshal)

/-- C2/C8 instance: a schema with two sort-key columns. -/
def twoSortKeySchema : Schema :=
  ((((newEmptySchema [116]).appendSortKey [97] 3 0 true).1).appendSortKey
    [98] 3 1 true).1

/-- C8 instance: a schema with a duplicate column name (the second
`AppendCol` reports the error but still appends the column, as the source
does). -/
def dupColSchema : Schema :=
  ((((newEmptySchema [116]).appendCol [97] 3).1).appendCol [97] 5).1

/-- C3 instance: one append with block size 4096 whose compressed buffer
is 50 bytes. -/
def c3Node : Inode :=
  (blockFileAppend 4096 (fun _ => 0) Inode.zero 0 (List.replicate 100 7)
    (List.replicate 50 9)).2

/-- C6 instance: the 100 appended bytes. -/
def c6Old : List Nat := (List.range 100).map (fun i => i + 100)

/-- C6 instance: the 30 update bytes. -/
def c6New : List Nat := (List.range 30).map (fun i => i + 1)

/-- C6 instance: segment file content after the append at offset 1000
(block size 1, the compressed buffer taken as the bytes themselves — the
most favorable reading of the scenario's unpadded byte counts). -/
def c6File : Nat → Nat :=
  (blockFileAppend 1 (fun _ => 0) Inode.zero 1000 c6Old c6Old).1

/-- C6 instance: the inode after the append. -/
def c6Node : Inode :=
  (blockFileAppend 1 (fun _ => 0) Inode.zero 1000 c6Old c6Old).2

/-- C6 instance: the update of logical offset 20 with 30 bytes, written at
offset 2000. -/
def c6Upd : Option ((Nat → Nat) × Inode × List Extent) :=
  blockFileUpdate 1 c6File c6Node 2000 c6New 20

/-- C6 instance: the repaired inode. -/
def c6Inode : Inode :=
  match c6Upd with
  | some p => p.2.1
  | none => Inode.zero

/-- C6 instance: the freed ranges of the update. -/
def c6Free : List Extent :=
  match c6Upd with
  | some p => p.2.2
  | none => []

/-- C6 instance: a full 100-byte read of the repaired inode. -/
def c6ReadBack : GoOut (Nat × List Nat) :=
  match c6Upd with
  | some p => blockFileRead (pureReadAt p.1) p.2.1 (List.replicate 100 0)
  | none => GoOut.eof

/-- C7 instance: an inode with one data extent and a current log extent. -/
def c7Node : Inode :=
  { Inode.zero with
    inode := 3
    size := 60
    extents := [⟨appendTyp, 500, 64, ⟨0, 60⟩⟩]
    logExtents := ⟨0, 100, 32, ⟨0, 0⟩⟩ }

/-- C7 instance: log state with the allocator cursor at 1000. -/
def c7St : LogState := ⟨⟨1000, []⟩, []⟩

/-- C9 instance: an inode with one extent whose data subrange is 4 bytes. -/
def c9Node : Inode :=
  { Inode.zero with size := 4, extents := [⟨appendTyp, 0, 4, ⟨0, 4⟩⟩] }

/-- C9 instance: a segment file whose every `ReadAt` fails with an I/O
error. -/
def c9ReadAt : Nat → Nat → GoOut (List Nat) :=
  fun _ _ => GoOut.goError (MoErr.ioErr 5)

/-- C9 instance: the bound block file. -/
def c9Bf : BlockFileM := ⟨c9Node, c9ReadAt⟩

/-- C9 instance: a data file bound to the failing block file. -/
def c9Df : DataFile := ⟨some c9Bf, [], ⟨0, 0, 0⟩⟩

/-- C4/C5 instance: scenario S3 — two transactions, a checkpoint covering
lsn 1, a third transaction. -/
def s3Scan : List ScannedEntry :=
  [⟨eTTxn, 1, 1, 11, [1], [], []⟩,
   ⟨eTTxn, 1, 2, 12, [2], [], []⟩,
   ⟨eTCheckpoint, 1, 3, 0, [99], [], [(1, [(1, 1)])]⟩,
   ⟨eTTxn, 1, 3, 13, [3], [], []⟩]

/-- C4 instance: the classified replayer of scenario S3. -/
def r4w : Replayer := replayerScan s3Scan

/-- C4 instance: the suppressed entry (group 1, lsn 1). -/
def e4Skip : ReplayEntry := ⟨eTTxn, 1, 1, 11, [1]⟩

/-- C5 instance: scenario S4 — two uncommitted fragments of txn 7, then
its committing `Txn` entry. -/
def s4Scan : List ScannedEntry :=
  [⟨eTUncommitted, 1, 1, 7, [65, 66], [1], []⟩,
   ⟨eTUncommitted, 1, 2, 7, [67, 68], [1], []⟩,
   ⟨eTTxn, 1, 10, 7, [69, 70], [], []⟩]

/-- C5 instance: the classified replayer of scenario S4. -/
def r5w : Replayer := replayerScan s4Scan

/-- C5 instance: the committing `Txn` entry. -/
def e5Txn : ReplayEntry := ⟨eTTxn, 1, 10, 7, [69, 70]⟩

/-! ## Theorems -/

/-- C1.  The round trip `ReadFrom ∘ Marshal` does not restore the schema:
`Marshal` writes `View | Constraint | UniqueIndex | SecondaryIndex` while
`ReadFrom` reads `View | UniqueIndex | SecondaryIndex | Constraint`, so on
a schema built by add-column operations and finalized, deserializing the
marshalled bytes lands `Constraint` in `UniqueIndex`, `UniqueIndex` in
`SecondaryIndex` and `SecondaryIndex` in `Constraint`, and the result
differs from the original schema. -/
theorem c1_roundtrip_swaps_fields :
    c1Pre.finalize true = GoOut.ok c1Schema ∧
    c1Read.map Schema.view = some c1Schema.view ∧
    c1Read.map Schema.uniqueIndex = some c1Schema.constraint ∧
    c1Read.map Schema.secondaryIndex = some c1Schema.uniqueIndex ∧
    c1Read.map Schema.constraint = some c1Schema.secondaryIndex ∧
    c1Read.map Schema.colDefs = some c1Schema.colDefs ∧
    c1Read.map Schema.nameIndex = some c1Schema.nameIndex ∧
    c1Read ≠ some c1Schema := by
  decide

/-- C2 counterexample.  On a schema with two sort-key columns,
`Finalize` panics with "schema: multiple sort keys"; it does not return a
`ConstraintViolation` error. -/
theorem c2_counterexample_panic :
    twoSortKeySchema.finalize true =
      GoOut.panicked "schema: multiple sort keys" ∧
    errKindCV (twoSortKeySchema.finalize true) = false := by
  decide

/-- C3 counterexample.  After one `BlockFile.Append` whose compressed
buffer is 50 bytes under block size 4096, the inode's size is 50 but the
extent lengths sum to the rounded-up 4096, so size differs from the sum of
extent lengths. -/
theorem c3_counterexample_padding :
    c3Node.size = 50 ∧ extLenSum c3Node = 4096 ∧
    c3Node.size ≠ extLenSum c3Node := by
  decide

/-- C6 counterexample.  Appending 100 bytes and updating logical offset 20
with 30 bytes (block size 1, the compressed buffer taken as the bytes
themselves) yields three extents whose logical coverage is
`[0..20), [20..50), [50..100)` — not `[50..110)`: the repair consumes 30
old bytes for the 30 new ones instead of growing the stream. -/
theorem c6_counterexample_third_range :
    logicalRanges c6Inode.extents 0 = [(0, 20), (20, 50), (50, 100)] ∧
    logicalRanges c6Inode.extents 0 ≠ [(0, 20), (20, 50), (50, 110)] := by
  decide

/-- C6 amended.  The scenario produces exactly three extents covering
`[0..20), [20..50), [50..100)` — the 20-byte prefix of the original
extent, the 30-byte update extent, and the 50-byte suffix at physical
offset 1050 — freeing the overwritten range, and a full 100-byte read
returns the concatenation old[0..20) ++ new ++ old[50..100). -/
theorem c6_extent_repair_result :
    c6Inode.extents =
      [⟨appendTyp, 1000, 20, ⟨0, 100⟩⟩, ⟨updateTyp, 2000, 30, ⟨0, 0⟩⟩,
       ⟨0, 1050, 50, ⟨0, 0⟩⟩] ∧
    logicalRanges c6Inode.extents 0 = [(0, 20), (20, 50), (50, 100)] ∧
    c6Free = [mkFree 1020 30] ∧
    c6ReadBack = GoOut.ok (100, c6Old.take 20 ++ c6New ++ c6Old.drop 50) := by
  decide

/-- C7 counterexample.  Removing an inode holding one data extent
`(500, 64)` and log extent `(100, 32)` frees exactly the old log extent
and the freshly written log record at `(1000, 64)`: the data extent is
never freed, and the new log extent (not part of the claim) is. -/
theorem c7_counterexample_frees :
    (removeInode 32 c7St c7Node).1.alloc.freed = [(100, 32), (1000, 64)] ∧
    ((500 : Nat), (64 : Nat)) ∉ (removeInode 32 c7St c7Node).1.alloc.freed ∧
    (removeInode 32 c7St c7Node).2.logExtents.offset = 1000 ∧
    (removeInode 32 c7St c7Node).2.logExtents.length = 64 := by
  decide

/-- C9.  `dataFile.Read` on a bound file discards the error of the wrapped
`BlockFile.Read` (`return n, nil`): with a segment file whose `ReadAt`
fails with an I/O error, the wrapped read returns that error but
`dataFile.Read` reports success with a nil error. -/
theorem c9_read_error_dropped :
    blockFileRead c9Bf.readAt c9Bf.node (List.replicate 4 0) =
      GoOut.goError (MoErr.ioErr 5) ∧
    dataFileRead c9Df (List.replicate 4 0) =
      GoOut.ok (0, List.replicate 4 0, none) := by
  decide

/-- C7 amended.  `RemoveInode` sets the state to `Removed` and journals a
log record carrying that state; the journaling frees the log extent that
was current before the call and allocates a fresh one, which `RemoveInode`
then frees as well.  Nothing else is freed: the data extents survive
untouched. -/
theorem c7_remove_frees_log_extents (blockSize : Nat) (st : LogState)
    (node : Inode) (h : 0 < blockSize) :
    (removeInode blockSize st node).2.state = removeState ∧
    (removeInode blockSize st node).1.records = st.records ++
      [⟨node.inode, node.algo, removeState, node.size,
        node.extents.map (fun e => (e.typ, e.offset, e.length))⟩] ∧
    (removeInode blockSize st node).1.alloc.freed = st.alloc.freed ++
      [(node.logExtents.offset, node.logExtents.length),
       ((removeInode blockSize st node).2.logExtents.offset,
        (removeInode blockSize st node).2.logExtents.length)] ∧
    (removeInode blockSize st node).2.logExtents.offset = st.alloc.next ∧
    (removeInode blockSize st node).2.extents = node.extents := by
  refine ⟨rfl, rfl, ?_, rfl, rfl⟩
  simp [removeInode, logAppend, Allocator.allocate, Allocator.free]

/-- C7 witness: the general statement instantiated at the concrete C7
inode. -/
theorem c7_remove_frees_log_extents_witness :
    (0 < 32 ∧ (removeInode 32 c7St c7Node).2.state = removeState) ∧
    (removeInode 32 c7St c7Node).2.extents = c7Node.extents :=
  ⟨⟨by decide, (c7_remove_frees_log_extents 32 c7St c7Node (by decide)).1⟩,
   (c7_remove_frees_log_extents 32 c7St c7Node (by decide)).2.2.2.2⟩

/-- C10.  On a data file whose backing file slice is nil (as `newIndex`
creates it), `Write` stores a private copy of the buffer and sets
`stat.size`, `stat.originSize` to its length and `stat.algo` to 0, and a
subsequent `Read` into a buffer of the same length returns exactly the
written bytes. -/
theorem c10_nil_file_write_read (df : DataFile) (buf out : List Nat)
    (hfile : df.file = none) (hlen : out.length = buf.length) :
    newIndex.file = none ∧
    ∃ df2 : DataFile,
      dataFileWrite df buf = some (df2, buf.length) ∧
      df2.buf = buf ∧ df2.stat.size = buf.length ∧
      df2.stat.originSize = buf.length ∧ df2.stat.algo = 0 ∧
      dataFileRead df2 out = GoOut.ok (out.length, buf, none) := by
  refine ⟨rfl, { df with buf := buf, stat := ⟨buf.length, buf.length, 0⟩ },
    ?_, rfl, rfl, rfl, rfl, ?_⟩
  · unfold dataFileWrite
    rw [hfile]
  · have hdrop : out.drop buf.length = [] := by
      rw [← hlen]
      exact List.drop_length out
    simp [dataFileRead, hfile, goCopy, hlen, hdrop]

/-- C10 witness: a fresh index file, a three-byte write and a three-byte
read buffer. -/
theorem c10_nil_file_write_read_witness :
    newIndex.file = none ∧
    ∃ df2 : DataFile,
      dataFileWrite newIndex [1, 2, 3] = some (df2, 3) ∧
      df2.buf = [1, 2, 3] ∧ df2.stat.size = 3 ∧
      df2.stat.originSize = 3 ∧ df2.stat.algo = 0 ∧
      dataFileRead df2 [0, 0, 0] = GoOut.ok (3, [1, 2, 3], none) :=
  c10_nil_file_write_read newIndex [1, 2, 3] [0, 0, 0] rfl rfl

/-- The body of the phase-B loop, expressed through `uncommitFor`: the
nested Go map lookups agree with the spec-side buffered-payload list. -/
theorem applyBody_eq (r : Replayer) (e : ReplayEntry) :
    applyBody r e =
      (if e.entryType == eTTxn then
        (uncommitFor r e.group e.tid).map toCall ++ [toCall e]
      else [toCall e]) := by
  unfold applyBody uncommitFor
  rcases h1 : alistGet r.uncommit e.group with _ | tidMap
  · simp [h1]
  · rcases h2 : alistGet tidMap e.tid with _ | entries <;> simp [h1, h2]

/-- Each iteration of the phase-B loop produces exactly the spec-side
expansion of its entry. -/
theorem applyEntryCalls_eq (r : Replayer) (e : ReplayEntry) :
    applyEntryCalls r e = expandEntry r e := by
  unfold applyEntryCalls expandEntry inCkptRange
  rcases h : alistGet r.checkpointrange e.group with _ | ivs
  · simp [h, applyBody_eq]
  · by_cases hc : containsLsn ivs e.commitId <;> simp [h, hc, applyBody_eq]

/-- The phase-B loop is the concatenation of the per-entry expansions. -/
theorem applyLoop_eq (r : Replayer) (l : List ReplayEntry) :
    applyLoop r l = l.flatMap (expandEntry r) := by
  induction l with
  | nil => rfl
  | cons e rest ih => simp [applyLoop, ih, applyEntryCalls_eq]

/-- C4.  `replayer.Apply` applies the buffered checkpoints and then, for
each buffered entry, exactly its expansion: an entry whose `(group, lsn)`
lies inside the classified checkpoint range of its group expands to
nothing — its apply callback is never invoked — and every entry outside
those ranges has its own callback invoked. -/
theorem replay_checkpoint_suppression (r : Replayer) :
    replayerApply r =
      r.checkpoints.map toCall ++ r.entrys.flatMap (expandEntry r) ∧
    (∀ e, inCkptRange r e = true → expandEntry r e = []) ∧
    (∀ e, inCkptRange r e = false → toCall e ∈ expandEntry r e) := by
  refine ⟨by simp [replayerApply, applyLoop_eq], ?_, ?_⟩
  · intro e h
    simp [expandEntry, h]
  · intro e h
    by_cases ht : e.entryType == eTTxn <;> simp [expandEntry, h, ht]

/-- C4 witness: in the classified S3 scenario, the transaction at
`(group 1, lsn 1)` lies inside the checkpoint range and expands to no
apply call. -/
theorem replay_checkpoint_suppression_witness :
    inCkptRange r4w e4Skip = true ∧ expandEntry r4w e4Skip = [] :=
  ⟨by decide, (replay_checkpoint_suppression r4w).2.1 e4Skip (by decide)⟩

/-- C5.  For a buffered `Txn` entry outside the checkpoint ranges, the
apply trace is: the checkpoints, the expansions of the earlier entries,
then all uncommitted payloads buffered for the transaction's
`(group, txn-id)` in insertion order immediately followed by the `Txn`
entry's own payload, then the expansions of the later entries; and no
non-`Txn` entry's expansion ever touches the uncommitted buffers — it is
exactly its own call. -/
theorem replay_txn_uncommitted_order (r : Replayer)
    (pre post : List ReplayEntry) (e : ReplayEntry)
    (hsplit : r.entrys = pre ++ e :: post) (ht : e.entryType = eTTxn)
    (hc : inCkptRange r e = false) :
    replayerApply r =
      r.checkpoints.map toCall ++
        (pre.flatMap (expandEntry r) ++
          (((uncommitFor r e.group e.tid).map toCall ++ [toCall e]) ++
            post.flatMap (expandEntry r))) ∧
    (∀ e2, e2.entryType ≠ eTTxn → inCkptRange r e2 = false →
      expandEntry r e2 = [toCall e2]) := by
  constructor
  · rw [replayerApply, applyLoop_eq, hsplit, List.flatMap_append,
      List.flatMap_cons]
    have he : expandEntry r e =
        (uncommitFor r e.group e.tid).map toCall ++ [toCall e] := by
      simp [expandEntry, hc, ht]
    rw [he]
  · intro e2 h1 h2
    have hb : (e2.entryType == eTTxn) = false := by
      simp [h1]
    simp [expandEntry, h2, hb]

/-- C5 witness: the classified S4 scenario, whose entry list is the single
committing `Txn` entry of txn 7. -/
theorem replay_txn_uncommitted_order_witness :
    r5w.entrys = [] ++ e5Txn :: [] ∧
    replayerApply r5w =
      r5w.checkpoints.map toCall ++
        (([] : List ReplayEntry).flatMap (expandEntry r5w) ++
          (((uncommitFor r5w e5Txn.group e5Txn.tid).map toCall ++
            [toCall e5Txn]) ++
            ([] : List ReplayEntry).flatMap (expandEntry r5w))) :=
  ⟨by decide,
   (replay_txn_uncommitted_order r5w [] [] e5Txn (by decide) (by decide)
     (by decide)).1⟩

/-- The validation loop collects exactly the positions of the sort-key
columns. -/
theorem sortPositions_length (cols : List ColDef) (idx : Nat) :
    (sortPositions cols idx).length =
      (cols.filter (fun c => c.sortKey)).length := by
  induction cols generalizing idx with
  | nil => rfl
  | cons d rest ih =>
    by_cases h : d.sortKey <;>
      simp [sortPositions, List.filter_cons, h, ih]

/-- On a well-formed column list — stored indices matching positions,
no duplicate names (also against the already-seen set), at most one
physical-address column — the validation loop succeeds and returns the
collected sort positions. -/
theorem finalizeLoop_ok_of_valid :
    ∀ (cols : List ColDef) (idx : Nat) (seen : List (List Nat))
      (acc : List Nat) (phy : Option ColDef),
      (∀ i, i < cols.length → (cols.getD i ColDef.zero).idx = idx + i) →
      (cols.map ColDef.name).Nodup →
      (∀ c ∈ cols, c.name ∉ seen) →
      (phy = none → (cols.filter (fun c => c.phyAddr)).length ≤ 1) →
      (∀ p, phy = some p → (cols.filter (fun c => c.phyAddr)).length = 0) →
      ∃ phy', finalizeLoop cols idx seen acc phy =
        GoOut.ok (acc ++ sortPositions cols idx, phy') := by
  intro cols
  induction cols with
  | nil =>
    intro idx seen acc phy _ _ _ _ _
    exact ⟨phy, by simp [finalizeLoop, sortPositions]⟩
  | cons d rest ih =>
    intro idx seen acc phy hidx hnodup hseen hphyn hphys
    have hd : d.idx = idx := by
      have h0 := hidx 0 (by simp)
      simpa using h0
    have hseenb : (seen.any fun nm => nm == d.name) = false := by
      rw [List.any_eq_false]
      intro nm hnm
      have hne : nm ≠ d.name := fun hEq => hseen d (by simp) (hEq ▸ hnm)
      simp [hne]
    have hmap : (d.name :: rest.map ColDef.name).Nodup := by
      simpa using hnodup
    obtain ⟨hdn, hrestnodup⟩ := List.nodup_cons.mp hmap
    have hseen' : ∀ c ∈ rest, c.name ∉ d.name :: seen := by
      intro c hc
      simp only [List.mem_cons]
      rintro (hEq | hIn)
      · exact hdn (hEq ▸ List.mem_map_of_mem ColDef.name hc)
      · exact hseen c (List.mem_cons_of_mem _ hc) hIn
    have hidx' : ∀ i, i < rest.length →
        (rest.getD i ColDef.zero).idx = (idx + 1) + i := by
      intro i hi
      have h1 := hidx (i + 1) (by simpa using Nat.succ_lt_succ hi)
      simp only [List.getD_cons_succ] at h1
      omega
    have hacc : ∀ sp : List Nat,
        (if d.sortKey then acc ++ [idx] else acc) ++ sp =
          acc ++ ((if d.sortKey then [idx] else []) ++ sp) := by
      intro sp
      by_cases hs : d.sortKey <;> simp [hs]
    by_cases hp : d.phyAddr
    · cases phy with
      | some p =>
        exfalso
        have h0 := hphys p rfl
        simp [List.filter_cons, hp] at h0
      | none =>
        have hrest0 : (rest.filter (fun c => c.phyAddr)).length = 0 := by
          have h1 := hphyn rfl
          have h2 : (d :: rest).filter (fun c => c.phyAddr) =
              d :: rest.filter (fun c => c.phyAddr) := by
            simp [List.filter_cons, hp]
          rw [h2] at h1
          simp only [List.length_cons] at h1
          omega
        obtain ⟨phy', hrec⟩ := ih (idx + 1) (d.name :: seen)
          (if d.sortKey then acc ++ [idx] else acc) (some d) hidx'
          hrestnodup hseen'
          (fun h => absurd h (Option.some_ne_none d))
          (fun _ _ => hrest0)
        refine ⟨phy', ?_⟩
        simp only [finalizeLoop, hd, hseenb, hp]
        simp only [ne_eq, not_true_eq_false, if_false, Bool.false_eq_true,
          if_true]
        rw [hrec, hacc]
        simp [sortPositions]
    · have hfe : (d :: rest).filter (fun c => c.phyAddr) =
          rest.filter (fun c => c.phyAddr) := by
        simp [List.filter_cons, hp]
      obtain ⟨phy', hrec⟩ := ih (idx + 1) (d.name :: seen)
        (if d.sortKey then acc ++ [idx] else acc) phy hidx'
        hrestnodup hseen'
        (fun h => by have := hphyn h; rwa [hfe] at this)
        (fun p h => by have := hphys p h; rwa [hfe] at this)
      refine ⟨phy', ?_⟩
      simp only [finalizeLoop, hd, hseenb, hp]
      simp only [ne_eq, not_true_eq_false, if_false, Bool.false_eq_true,
        if_true]
      rw [hrec, hacc]
      simp [sortPositions]

/-- C2 amended.  On a schema whose columns are well-formed (indices match
positions, unique names, at most one physical-address column, no cached
physical-address key) but with more than one sort-key column,
`Finalize(true)` refuses the schema by panicking with "schema: multiple
sort keys" — it does not return a `ConstraintViolation` error. -/
theorem finalize_multi_sortkey_panics (s : Schema)
    (hidx : ∀ i, i < s.colDefs.length →
      (s.colDefs.getD i ColDef.zero).idx = i)
    (hnodup : (s.colDefs.map ColDef.name).Nodup)
    (hphy : (s.colDefs.filter (fun c => c.phyAddr)).length ≤ 1)
    (hpk : s.phyAddrKey = none)
    (hsk : 1 < (s.colDefs.filter (fun c => c.sortKey)).length) :
    s.finalize true = GoOut.panicked "schema: multiple sort keys" := by
  obtain ⟨phy', hloop⟩ := finalizeLoop_ok_of_valid s.colDefs 0 [] [] none
    (by intro i hi; rw [Nat.zero_add]; exact hidx i hi)
    hnodup
    (by intro c _ hmem; exact List.not_mem_nil _ hmem)
    (fun _ => hphy)
    (fun p hp => absurd hp (by simp))
  have hloop' : finalizeLoop s.colDefs 0 [] [] s.phyAddrKey =
      GoOut.ok ([] ++ sortPositions s.colDefs 0, phy') := by
    rw [hpk]; exact hloop
  have hne : s.colDefs.length ≠ 0 := by
    have hle := List.length_filter_le (fun c => c.sortKey) s.colDefs
    omega
  have hL : (sortPositions s.colDefs 0).length =
      (s.colDefs.filter (fun c => c.sortKey)).length :=
    sortPositions_length s.colDefs 0
  simp only [Schema.finalize, hloop', List.nil_append, if_true]
  rw [if_neg hne, if_neg (by omega), if_pos (by omega)]

/-- C2 witness: the concrete two-sort-key schema satisfies the
well-formedness hypotheses, and the amended statement applies to it. -/
theorem finalize_multi_sortkey_panics_witness :
    (twoSortKeySchema.colDefs.map ColDef.name).Nodup ∧
    twoSortKeySchema.finalize true =
      GoOut.panicked "schema: multiple sort keys" :=
  ⟨by decide,
   finalize_multi_sortkey_panics twoSortKeySchema (by decide) (by decide)
     (by decide) (by decide) (by decide)⟩

/-- Every failing outcome of the validation loop is an `InvalidInput`
error: the loop never returns a `ConstraintViolation`. -/
theorem finalizeLoop_err_invalid :
    ∀ (cols : List ColDef) (idx : Nat) (seen : List (List Nat))
      (acc : List Nat) (phy : Option ColDef),
      (∃ v, finalizeLoop cols idx seen acc phy = GoOut.ok v) ∨
      (∃ m, finalizeLoop cols idx seen acc phy =
        GoOut.goError (MoErr.invalidInput m)) := by
  intro cols
  induction cols with
  | nil => intro idx seen acc phy; exact Or.inl ⟨(acc, phy), rfl⟩
  | cons d rest ih =>
    intro idx seen acc phy
    by_cases h1 : d.idx ≠ idx
    · exact Or.inr ⟨"schema: wrong column index",
        by simp [finalizeLoop, if_pos h1]⟩
    have hd : d.idx = idx := not_not.mp h1
    by_cases h2 : (seen.any fun nm => nm == d.name) = true
    · exact Or.inr ⟨"schema: duplicate column",
        by simp [finalizeLoop, hd, h2]⟩
    have h2f : (seen.any fun nm => nm == d.name) = false := by
      cases hb : (seen.any fun nm => nm == d.name) with
      | true => exact absurd hb h2
      | false => rfl
    by_cases h3 : d.phyAddr
    · cases phy with
      | some p =>
        exact Or.inr ⟨"schema: duplicated physical address column",
          by simp [finalizeLoop, hd, h2f, h3]⟩
      | none =>
        have hred : finalizeLoop (d :: rest) idx seen acc none =
            finalizeLoop rest (idx + 1) (d.name :: seen)
              (if d.sortKey then acc ++ [idx] else acc) (some d) := by
          simp [finalizeLoop, hd, h2f, h3]
        rw [hred]
        exact ih (idx + 1) (d.name :: seen)
          (if d.sortKey then acc ++ [idx] else acc) (some d)
    · have h3f : d.phyAddr = false := by simpa using h3
      have hred : finalizeLoop (d :: rest) idx seen acc phy =
          finalizeLoop rest (idx + 1) (d.name :: seen)
            (if d.sortKey then acc ++ [idx] else acc) phy := by
        simp [finalizeLoop, hd, h2f, h3f]
      rw [hred]
      exact ih (idx + 1) (d.name :: seen)
        (if d.sortKey then acc ++ [idx] else acc) phy

/-- A successful validation loop certifies that the column names are
duplicate-free, among themselves and against the already-seen set. -/
theorem finalizeLoop_ok_nodup :
    ∀ (cols : List ColDef) (idx : Nat) (seen : List (List Nat))
      (acc : List Nat) (phy : Option ColDef) (v : List Nat × Option ColDef),
      finalizeLoop cols idx seen acc phy = GoOut.ok v →
      (cols.map ColDef.name).Nodup ∧ ∀ c ∈ cols, c.name ∉ seen := by
  intro cols
  induction cols with
  | nil =>
    intro idx seen acc phy v _
    exact ⟨List.nodup_nil, by intro c hc; exact absurd hc (List.not_mem_nil c)⟩
  | cons d rest ih =>
    intro idx seen acc phy v h
    by_cases h1 : d.idx ≠ idx
    · rw [show finalizeLoop (d :: rest) idx seen acc phy =
          GoOut.goError (MoErr.invalidInput "schema: wrong column index")
          from by simp [finalizeLoop, if_pos h1]] at h
      exact absurd h (by simp)
    have hd : d.idx = idx := not_not.mp h1
    by_cases h2 : (seen.any fun nm => nm == d.name) = true
    · rw [show finalizeLoop (d :: rest) idx seen acc phy =
          GoOut.goError (MoErr.invalidInput "schema: duplicate column")
          from by simp [finalizeLoop, hd, h2]] at h
      exact absurd h (by simp)
    have h2f : (seen.any fun nm => nm == d.name) = false := by
      cases hb : (seen.any fun nm => nm == d.name) with
      | true => exact absurd hb h2
      | false => rfl
    have hdseen : d.name ∉ seen := by
      intro hmem
      have := List.any_eq_false.mp h2f d.name hmem
      simp at this
    have hnext : ∀ phy2,
        finalizeLoop rest (idx + 1) (d.name :: seen)
          (if d.sortKey then acc ++ [idx] else acc) phy2 = GoOut.ok v →
        (rest.map ColDef.name).Nodup ∧ ∀ c ∈ rest, c.name ∉ d.name :: seen :=
      fun phy2 hh => ih (idx + 1) (d.name :: seen)
        (if d.sortKey then acc ++ [idx] else acc) phy2 v hh
    have hfin : ∃ phy2,
        finalizeLoop rest (idx + 1) (d.name :: seen)
          (if d.sortKey then acc ++ [idx] else acc) phy2 = GoOut.ok v := by
      by_cases h3 : d.phyAddr
      · cases phy with
        | some p =>
          rw [show finalizeLoop (d :: rest) idx seen acc (some p) =
              GoOut.goError
                (MoErr.invalidInput "schema: duplicated physical address column")
              from by simp [finalizeLoop, hd, h2f, h3]] at h
          exact absurd h (by simp)
        | none =>
          refine ⟨some d, ?_⟩
          rw [← h]
          simp [finalizeLoop, hd, h2f, h3]
      · have h3f : d.phyAddr = false := by simpa using h3
        refine ⟨phy, ?_⟩
        rw [← h]
        simp [finalizeLoop, hd, h2f, h3f]
    obtain ⟨phy2, hh⟩ := hfin
    obtain ⟨hrnodup, hrseen⟩ := hnext phy2 hh
    have hdn : d.name ∉ rest.map ColDef.name := by
      intro hmem
      obtain ⟨c, hc, hceq⟩ := List.mem_map.mp hmem
      exact hrseen c hc (by rw [hceq]; exact List.mem_cons_self _ _)
    refine ⟨?_, ?_⟩
    · simpa using List.nodup_cons.mpr ⟨hdn, hrnodup⟩
    · intro c hc
      rcases List.mem_cons.mp hc with hEq | hIn
      · rw [hEq]; exact hdseen
      · intro hmem
        exact hrseen c hIn (List.mem_cons_of_mem _ hmem)

/-- C8 amended.  A duplicate column name detected while appending yields a
`ConstraintViolation`, but a duplicate that survives to finalization is
rejected with an `InvalidInput` error instead. -/
theorem duplicate_column_errors (s : Schema) (d : ColDef) :
    ((nameLookup s.nameIndex d.name).isSome →
      (s.appendColDef d).2 =
        some (MoErr.constraintViolation "duplicate column")) ∧
    (¬ (s.colDefs.map ColDef.name).Nodup →
      ∃ m, s.finalize true = GoOut.goError (MoErr.invalidInput m)) := by
  constructor
  · intro h
    simp [Schema.appendColDef, h]
  · intro hdup
    rcases finalizeLoop_err_invalid s.colDefs 0 [] [] s.phyAddrKey with
      ⟨v, hok⟩ | ⟨m, herr⟩
    · exact absurd
        (finalizeLoop_ok_nodup s.colDefs 0 [] [] s.phyAddrKey v hok).1 hdup
    · refine ⟨m, ?_⟩
      have hne : s.colDefs.length ≠ 0 := by
        intro h0
        apply hdup
        rw [List.length_eq_zero.mp h0]
        exact List.nodup_nil
      simp only [Schema.finalize, herr, if_true]
      rw [if_neg hne]

/-- C8 counterexample.  On the concrete schema carrying a duplicate column
(the failed append left the column in place, as the source does),
finalization returns `InvalidInput`, not `ConstraintViolation`. -/
theorem c8_counterexample_finalize_kind :
    dupColSchema.finalize true =
      GoOut.goError (MoErr.invalidInput "schema: duplicate column") ∧
    errKindCV (dupColSchema.finalize true) = false := by
  decide

/-- C8 witness: both halves of the amended statement at the concrete
duplicate schema. -/
theorem duplicate_column_errors_witness :
    (dupColSchema.appendColDef { ColDef.zero with name := [97] }).2 =
      some (MoErr.constraintViolation "duplicate column") ∧
    ∃ m, dupColSchema.finalize true =
      GoOut.goError (MoErr.invalidInput m) :=
  ⟨(duplicate_column_errors dupColSchema
      { ColDef.zero with name := [97] }).1 (by decide),
   (duplicate_column_errors dupColSchema
      { ColDef.zero with name := [97] }).2 (by decide)⟩

/-- Rounding up to the block size never shrinks. -/
theorem le_p2roundup (x bs : Nat) (h : 0 < bs) : x ≤ p2roundup x bs := by
  unfold p2roundup
  have h1 := Nat.div_add_mod (x + bs - 1) bs
  have h2 : (x + bs - 1) % bs < bs := Nat.mod_lt _ h
  have h3 : (x + bs - 1) / bs * bs = bs * ((x + bs - 1) / bs) :=
    Nat.mul_comm _ _
  omega

/-- Folding a sequence of appends: each append contributes one `APPEND`
extent of the rounded-up length recording the compressed length as its
data subrange, and grows the size by the compressed length. -/
theorem applyAppendsFrom_spec (blockSize : Nat) :
    ∀ (l : List (Nat × List Nat × List Nat)) (node : Inode),
      (applyAppendsFrom blockSize node l).extents =
        node.extents ++ l.map (fun t =>
          (⟨appendTyp, t.1, p2roundup t.2.2.length blockSize,
            ⟨0, t.2.2.length⟩⟩ : Extent)) ∧
      (applyAppendsFrom blockSize node l).size =
        node.size + (l.map (fun t => t.2.2.length)).sum := by
  intro l
  induction l with
  | nil => intro node; simp [applyAppendsFrom]
  | cons t rest ih =>
    intro node
    have hstep : applyAppendsFrom blockSize node (t :: rest) =
        applyAppendsFrom blockSize
          (blockFileAppend blockSize (fun _ => 0) node t.1 t.2.1 t.2.2).2
          rest := by
      simp [applyAppendsFrom]
    rw [hstep]
    obtain ⟨he, hs⟩ :=
      ih (blockFileAppend blockSize (fun _ => 0) node t.1 t.2.1 t.2.2).2
    constructor
    · rw [he]
      simp [blockFileAppend, List.append_assoc]
    · rw [hs]
      simp only [blockFileAppend, List.map_cons, List.sum_cons]
      omega

/-- C3 amended.  For every block size and every sequence of appends into a
fresh inode: the inode's size equals the sum of the data-subrange lengths
of its extents (the unrounded compressed lengths); the sum of the extent
(allocated) lengths is the sum of the rounded-up compressed lengths; and
consequently the size never exceeds, but need not equal, that sum. -/
theorem append_size_data_invariant (blockSize : Nat)
    (l : List (Nat × List Nat × List Nat)) (h : 0 < blockSize) :
    (applyAppends blockSize l).size = extDataSum (applyAppends blockSize l) ∧
    extLenSum (applyAppends blockSize l) =
      (l.map (fun t => p2roundup t.2.2.length blockSize)).sum ∧
    (applyAppends blockSize l).size ≤ extLenSum (applyAppends blockSize l) := by
  obtain ⟨he, hs⟩ := applyAppendsFrom_spec blockSize l Inode.zero
  have hz : applyAppends blockSize l = applyAppendsFrom blockSize Inode.zero l :=
    rfl
  have hdata : extDataSum (applyAppends blockSize l) =
      (l.map (fun t => t.2.2.length)).sum := by
    rw [extDataSum, hz, he]
    simp only [Inode.zero, List.nil_append, List.map_map]
    congr 1
  have hlen : extLenSum (applyAppends blockSize l) =
      (l.map (fun t => p2roundup t.2.2.length blockSize)).sum := by
    rw [extLenSum, hz, he]
    simp only [Inode.zero, List.nil_append, List.map_map]
    congr 1
  have hsize : (applyAppends blockSize l).size =
      (l.map (fun t => t.2.2.length)).sum := by
    rw [hz, hs]
    simp [Inode.zero]
  refine ⟨by rw [hsize, hdata], hlen, ?_⟩
  rw [hsize, hlen]
  exact List.sum_le_sum (fun t _ => le_p2roundup t.2.2.length blockSize h)

/-- C3 witness: the amended statement at the concrete single append of
a 50-byte compressed buffer under block size 4096. -/
theorem append_size_data_invariant_witness :
    (applyAppends 4096 [(0, List.replicate 100 7, List.replicate 50 9)]).size =
      extDataSum
        (applyAppends 4096 [(0, List.replicate 100 7, List.replicate 50 9)]) ∧
    extLenSum
        (applyAppends 4096 [(0, List.replicate 100 7, List.replicate 50 9)]) =
      ([(0, List.replicate 100 7, List.replicate 50 9)].map
        (fun t => p2roundup t.2.2.length 4096)).sum ∧
    (applyAppends 4096 [(0, List.replicate 100 7, List.replicate 50 9)]).size ≤
      extLenSum
        (applyAppends 4096 [(0, List.replicate 100 7, List.replicate 50 9)]) :=
  append_size_data_invariant 4096
    [(0, List.replicate 100 7, List.replicate 50 9)] (by decide)
